import Mathlib

/-!
Verification of the decay-chain solver and the expression-compilation demos
of the `22-lambdify` notebook.

The notebook sets up the Technetium-99m decay chain
`x' = -l1*x, y' = l1*x - l2*y, z' = l2*y`, solves it in closed form, fixes the
integration constants from the initial values, and compiles symbolic
expressions to numeric functions (`lambdify`) with NumPy-style broadcasting.

The general N-compartment solver (`solve`) is not shipped in the notebook
itself (it lives in the exercise file); it is modelled here from the spec's
algorithm: compartment 0 decays exponentially, and each later compartment is a
linear combination of the exponentials `exp (-rate_j * t)` of the rates seen so
far, with coefficients fixed by the inflow recurrence and the initial values.
Coefficients are exact rationals; the solution functions are real-valued.
-/

open Filter Finset Topology

/-- One species/state of the decay chain: a decay rate constant and an initial
concentration, as in the spec's data model. -/
structure Compartment where
  rate : ℚ
  initc : ℚ
deriving DecidableEq, Repr

/-- A chain is an ordered sequence of compartments; compartment `i` feeds
compartment `i+1`. -/
abbrev Chain := List Compartment

/-- The list of rate constants of a chain. -/
def rates (ch : Chain) : List ℚ := ch.map Compartment.rate

/-- The list of initial concentrations of a chain. -/
def initcs (ch : Chain) : List ℚ := ch.map Compartment.initc

/-- Rate constant of compartment `i` (0 outside the chain). -/
def rateAt (ch : Chain) (i : ℕ) : ℚ := (rates ch).getD i 0

/-- Initial concentration of compartment `i` (0 outside the chain). -/
def initAt (ch : Chain) (i : ℕ) : ℚ := (initcs ch).getD i 0

/-- Modelled from the spec: the coefficient matrix of the closed-form solution.
`coeffRow r c i j` is the coefficient of `exp (-r j * t)` in the solution of
compartment `i`.  Row 0 is exponential decay of the initial amount; in row
`i+1` the coefficient of an inherited exponential `j ≤ i` is forced by the
inflow recurrence, and the new coefficient at `j = i+1` is fixed so that the
row sums to the initial concentration of compartment `i+1`. -/
def coeffRow (r c : ℕ → ℚ) : ℕ → ℕ → ℚ
  | 0 => fun j => if j = 0 then c 0 else 0
  | i + 1 => fun j =>
      if j ≤ i then r i * coeffRow r c i j / (r (i + 1) - r j)
      else if j = i + 1 then
        c (i + 1) - ∑ k ∈ Finset.range (i + 1), r i * coeffRow r c i k / (r (i + 1) - r k)
      else 0

/-- Modelled from the spec: the closed-form concentration of compartment `i`
as a function of time, a linear combination of exponentials in the rate
constants seen so far. -/
noncomputable def solutionFun (r c : ℕ → ℚ) (i : ℕ) (t : ℝ) : ℝ :=
  ∑ j ∈ Finset.range (i + 1), (coeffRow r c i j : ℝ) * Real.exp (-(r j : ℝ) * t)

/-- Error outcomes of `solve`, from the spec's error-handling design. -/
inductive SolveError where
  | invalidChain
  | degenerateRates
deriving DecidableEq, Repr

/-- Modelled from the spec: a chain is well formed when it is non-empty and
all rates and initial concentrations are non-negative. -/
def validChain (ch : Chain) : Bool :=
  !ch.isEmpty && ch.all fun cp => 0 ≤ cp.rate && 0 ≤ cp.initc

/-- Modelled from the spec: `solve` rejects malformed chains with
`invalidChain`, rejects repeated rate constants with `degenerateRates` (the
secular-term case is not special-cased), and otherwise returns the closed-form
solution functions. -/
noncomputable def solve (ch : Chain) : Except SolveError (ℕ → ℝ → ℝ) :=
  if validChain ch = false then .error .invalidChain
  else if ¬ (rates ch).Nodup then .error .degenerateRates
  else .ok (solutionFun (rateAt ch) (initAt ch))

/-- Inflow into compartment `i` under solutions `s`: nothing flows into the
head of the chain, and compartment `i+1` gains what compartment `i` loses. -/
def inflow (r : ℕ → ℚ) (s : ℕ → ℝ → ℝ) (i : ℕ) (t : ℝ) : ℝ :=
  if i = 0 then 0 else (r (i - 1) : ℝ) * s (i - 1) t

/-- The notebook's concrete scenario: the Tc-99m chain with rates
`3.2e-5, 1.04e-13, 0` (per second) and initial concentrations `1, 0, 0`. -/
def tc99 : Chain :=
  [⟨32 / 1000000, 1⟩, ⟨104 / 1000000000000000, 0⟩, ⟨0, 0⟩]

/-- A small distinct-rate chain used to instantiate the general theorems. -/
def wchain : Chain :=
  [⟨2, 1⟩, ⟨1, 2⟩, ⟨0, 3⟩]

/-- The one intentionally degenerate chain used to pin down the repeated-rate
behaviour: two compartments with the same rate constant. -/
def dchain : Chain := [⟨1, 1⟩, ⟨1, 0⟩]

/-- A NumPy-style 2-dimensional array: a shape plus an indexing function, as
consumed and produced by the compiled expression of the notebook. -/
structure Arr2 where
  rows : ℕ
  cols : ℕ
  data : ℕ → ℕ → ℝ

/-- NumPy's broadcasting rule for one dimension: equal extents broadcast to
themselves and an extent of 1 stretches to the other extent. -/
def broadcastDim (a b : ℕ) : Option ℕ :=
  if a = b then some a else if a = 1 then some b else if b = 1 then some a else none

/-- Index into a possibly stretched dimension: a dimension of extent 1 is read
at 0 regardless of the requested index. -/
def bidx (n i : ℕ) : ℕ := if n = 1 then 0 else i

/-- Elementwise application of a binary function to two 2-dimensional arrays
under NumPy broadcasting; fails when the shapes are incompatible. -/
noncomputable def broadcastMap2 (f : ℝ → ℝ → ℝ) (A B : Arr2) : Option Arr2 :=
  match broadcastDim A.rows B.rows, broadcastDim A.cols B.cols with
  | some m, some n => some ⟨m, n, fun i j =>
      f (A.data (bidx A.rows i) (bidx A.cols j)) (B.data (bidx B.rows i) (bidx B.cols j))⟩
  | _, _ => none

noncomputable def exprFun (a b : ℝ) : ℝ := 3 * a ^ 2 + Real.log (a ^ 2 + b ^ 2 + 1)

noncomputable def harr (A B : Arr2) : Option Arr2 := broadcastMap2 exprFun A B

noncomputable def xarr2d : Arr2 := ⟨5, 1, fun i _ => 17 + (i : ℝ) / 4⟩

noncomputable def yarr2d : Arr2 := ⟨1, 7, fun _ j => 42 + (j : ℝ) / 6⟩

/-- The notebook's symbolic expressions over the symbols `x` and `y`:
`3*x**2 + sym.log(x**2 + y**2 + 1)` uses exactly these constructors. -/
inductive SymExpr where
  | varX
  | varY
  | num (q : ℚ)
  | add (a b : SymExpr)
  | mul (a b : SymExpr)
  | pow (a : SymExpr) (n : ℕ)
  | log (a : SymExpr)
deriving DecidableEq

noncomputable def evalEnv (vx vy : ℝ) : SymExpr → ℝ
  | .varX => vx
  | .varY => vy
  | .num q => (q : ℝ)
  | .add a b => evalEnv vx vy a + evalEnv vx vy b
  | .mul a b => evalEnv vx vy a * evalEnv vx vy b
  | .pow a n => evalEnv vx vy a ^ n
  | .log a => Real.log (evalEnv vx vy a)

def subsXY (vx vy : ℚ) : SymExpr → SymExpr
  | .varX => .num vx
  | .varY => .num vy
  | .num q => .num q
  | .add a b => .add (subsXY vx vy a) (subsXY vx vy b)
  | .mul a b => .mul (subsXY vx vy a) (subsXY vx vy b)
  | .pow a n => .pow (subsXY vx vy a) n
  | .log a => .log (subsXY vx vy a)

noncomputable def lambdifyXY (e : SymExpr) : ℝ → ℝ → ℝ := fun a b => evalEnv a b e

noncomputable def evalf (e : SymExpr) : ℝ := evalEnv 0 0 e

def exprDemo : SymExpr :=
  .add (.mul (.num 3) (.pow .varX 2))
    (.log (.add (.add (.pow .varX 2) (.pow .varY 2)) (.num 1)))

/-- The symbols of the notebook's ODE session: the declared parameters
`t lambda_1 lambda_2 x0 y0 z0` and the integration constants `C1 C2 C3`
introduced by the solver. -/
inductive Dsym where
  | t
  | l1
  | l2
  | x0
  | y0
  | z0
  | C1
  | C2
  | C3
deriving DecidableEq

inductive DExpr where
  | sym (s : Dsym)
  | num (q : ℚ)
  | add (a b : DExpr)
  | neg (a : DExpr)
  | mul (a b : DExpr)
  | div (a b : DExpr)
  | exp (a : DExpr)
deriving DecidableEq

def freeSymbols : DExpr → Finset Dsym
  | .sym s => {s}
  | .num _ => ∅
  | .add a b => freeSymbols a ∪ freeSymbols b
  | .neg a => freeSymbols a
  | .mul a b => freeSymbols a ∪ freeSymbols b
  | .div a b => freeSymbols a ∪ freeSymbols b
  | .exp a => freeSymbols a

def substConsts (m : Dsym → Option DExpr) : DExpr → DExpr
  | .sym s => (m s).getD (.sym s)
  | .num q => .num q
  | .add a b => .add (substConsts m a) (substConsts m b)
  | .neg a => .neg (substConsts m a)
  | .mul a b => .mul (substConsts m a) (substConsts m b)
  | .div a b => .div (substConsts m a) (substConsts m b)
  | .exp a => .exp (substConsts m a)

def expNeg (rate : Dsym) : DExpr := .exp (.neg (.mul (.sym rate) (.sym .t)))

def rateFrac (a : Dsym) : DExpr :=
  .div (.sym a) (.add (.sym .l2) (.neg (.sym .l1)))

def xSol : DExpr := .mul (.sym .C1) (expNeg .l1)

def ySol : DExpr :=
  .add (.mul (.mul (.sym .C1) (rateFrac .l1)) (expNeg .l1))
    (.mul (.sym .C2) (expNeg .l2))

def zSol : DExpr :=
  .add (.sym .C3)
    (.add (.neg (.mul (.mul (.sym .C1) (rateFrac .l2)) (expNeg .l1)))
      (.neg (.mul (.sym .C2) (expNeg .l2))))

def dsolveSolutions : List DExpr := [xSol, ySol, zSol]

def declaredSymbols : Finset Dsym := {.t, .l1, .l2, .x0, .y0, .z0}

def integrationConstants : Finset Dsym :=
  (dsolveSolutions.foldr (fun e acc => freeSymbols e ∪ acc) ∅) \ declaredSymbols

def constExprs : Dsym → Option DExpr
  | .C1 => some (.sym .x0)
  | .C2 => some (.add (.sym .y0) (.neg (.mul (.sym .x0) (rateFrac .l1))))
  | .C3 => some (.add (.sym .z0)
      (.add (.add (.sym .y0) (.neg (.mul (.sym .x0) (rateFrac .l1))))
        (.mul (.sym .x0) (rateFrac .l2))))
  | _ => none

def analytic : List DExpr := dsolveSolutions.map (substConsts constExprs)

/- ------------------------------------------------------------------ -/
/- Lemmas about the decay-chain solver.                                -/
/- ------------------------------------------------------------------ -/

lemma coeffRow_succ_of_le (r c : ℕ → ℚ) (i j : ℕ) (hj : j ≤ i) :
    coeffRow r c (i + 1) j = r i * coeffRow r c i j / (r (i + 1) - r j) := by
  simp [coeffRow, hj]

lemma coeffRow_succ_self (r c : ℕ → ℚ) (i : ℕ) :
    coeffRow r c (i + 1) (i + 1) =
      c (i + 1) - ∑ k ∈ Finset.range (i + 1), r i * coeffRow r c i k / (r (i + 1) - r k) := by
  simp [coeffRow]

lemma coeffRow_sum (r c : ℕ → ℚ) (i : ℕ) :
    ∑ j ∈ Finset.range (i + 1), coeffRow r c i j = c i := by
  cases i with
  | zero => simp [coeffRow]
  | succ m =>
      rw [Finset.sum_range_succ, coeffRow_succ_self]
      rw [Finset.sum_congr rfl fun j hj =>
        coeffRow_succ_of_le r c m j (Nat.lt_succ_iff.mp (Finset.mem_range.mp hj))]
      ring

lemma solutionFun_zero (r c : ℕ → ℚ) (i : ℕ) : solutionFun r c i 0 = (c i : ℝ) := by
  have h := coeffRow_sum r c i
  have h2 : ((∑ j ∈ Finset.range (i + 1), coeffRow r c i j : ℚ) : ℝ) = (c i : ℝ) := by
    exact_mod_cast congrArg (fun q : ℚ => (q : ℝ)) h
  push_cast at h2
  simpa [solutionFun] using h2

lemma hasDerivAt_term (a b : ℝ) (t : ℝ) :
    HasDerivAt (fun u : ℝ => a * Real.exp (b * u)) (a * (b * Real.exp (b * t))) t := by
  have h := (((hasDerivAt_id t).const_mul b).exp).const_mul a
  simpa [mul_comm, mul_assoc, mul_left_comm] using h

lemma hasDerivAt_solutionFun (r c : ℕ → ℚ) (i : ℕ) (t : ℝ) :
    HasDerivAt (solutionFun r c i)
      (∑ j ∈ Finset.range (i + 1),
        (coeffRow r c i j : ℝ) * (-(r j : ℝ) * Real.exp (-(r j : ℝ) * t))) t := by
  unfold solutionFun
  apply HasDerivAt.sum
  intro j _
  exact hasDerivAt_term _ _ t

lemma coeff_ode_identity (r c : ℕ → ℚ) (m j : ℕ) (hj : j ≤ m) (hne : r (m + 1) ≠ r j) :
    (coeffRow r c (m + 1) j : ℝ) * (-(r j : ℝ)) =
      (r m : ℝ) * (coeffRow r c m j : ℝ) - (r (m + 1) : ℝ) * (coeffRow r c (m + 1) j : ℝ) := by
  have hdR : (r (m + 1) : ℝ) - (r j : ℝ) ≠ 0 := by
    rw [sub_ne_zero]
    exact_mod_cast hne
  rw [coeffRow_succ_of_le r c m j hj]
  push_cast
  field_simp
  ring

theorem solutionFun_ode (r c : ℕ → ℚ) (i : ℕ)
    (hd : ∀ a b, a ≤ i → b ≤ i → a ≠ b → r a ≠ r b) (t : ℝ) :
    HasDerivAt (solutionFun r c i)
      (inflow r (solutionFun r c) i t - (r i : ℝ) * solutionFun r c i t) t := by
  have h := hasDerivAt_solutionFun r c i t
  have hval : inflow r (solutionFun r c) i t - (r i : ℝ) * solutionFun r c i t =
      ∑ j ∈ Finset.range (i + 1),
        (coeffRow r c i j : ℝ) * (-(r j : ℝ) * Real.exp (-(r j : ℝ) * t)) := by
    cases i with
    | zero =>
        simp only [inflow, solutionFun, Finset.sum_range_one, if_pos]
        norm_num
        ring
    | succ m =>
        have key : ∀ j ∈ Finset.range (m + 1),
            (coeffRow r c (m + 1) j : ℝ) * (-(r j : ℝ) * Real.exp (-(r j : ℝ) * t)) =
              ((r m : ℝ) * (coeffRow r c m j : ℝ) -
                (r (m + 1) : ℝ) * (coeffRow r c (m + 1) j : ℝ)) * Real.exp (-(r j : ℝ) * t) := by
          intro j hj
          have hj' : j ≤ m := Nat.lt_succ_iff.mp (Finset.mem_range.mp hj)
          have hne : r (m + 1) ≠ r j := hd (m + 1) j le_rfl (hj'.trans (Nat.le_succ m))
            (by omega)
          have := coeff_ode_identity r c m j hj' hne
          calc (coeffRow r c (m + 1) j : ℝ) * (-(r j : ℝ) * Real.exp (-(r j : ℝ) * t))
              = ((coeffRow r c (m + 1) j : ℝ) * (-(r j : ℝ))) * Real.exp (-(r j : ℝ) * t) := by
                ring
            _ = ((r m : ℝ) * (coeffRow r c m j : ℝ) -
                (r (m + 1) : ℝ) * (coeffRow r c (m + 1) j : ℝ)) * Real.exp (-(r j : ℝ) * t) := by
                rw [this]
        rw [Finset.sum_range_succ, Finset.sum_congr rfl key]
        simp only [inflow, Nat.succ_ne_zero, if_neg, ite_false, if_false, solutionFun,
          Nat.add_sub_cancel]
        rw [Finset.sum_range_succ (n := m + 1)]
        simp only [sub_mul]
        rw [Finset.sum_sub_distrib]
        simp only [mul_assoc]
        rw [← Finset.mul_sum, ← Finset.mul_sum]
        ring
  rw [hval]
  exact h

lemma solve_eq_ok (ch : Chain) (s : ℕ → ℝ → ℝ) (h : solve ch = Except.ok s) :
    validChain ch = true ∧ (rates ch).Nodup ∧ s = solutionFun (rateAt ch) (initAt ch) := by
  unfold solve at h
  by_cases h1 : validChain ch = false
  · rw [if_pos h1] at h
    cases h
  · rw [if_neg h1] at h
    by_cases h2 : (rates ch).Nodup
    · rw [if_neg (not_not_intro h2)] at h
      exact ⟨by simpa using h1, h2, (Except.ok.inj h).symm⟩
    · rw [if_pos h2] at h
      cases h

lemma length_rates (ch : Chain) : (rates ch).length = ch.length := by
  simp [rates]

lemma rateAt_ne_of_nodup (ch : Chain) (hnd : (rates ch).Nodup) :
    ∀ a b, a < ch.length → b < ch.length → a ≠ b → rateAt ch a ≠ rateAt ch b := by
  intro a b ha hb hab
  have la : a < (rates ch).length := by rwa [length_rates]
  have lb : b < (rates ch).length := by rwa [length_rates]
  rw [rateAt, rateAt, List.getD_eq_getElem _ _ la, List.getD_eq_getElem _ _ lb]
  intro hval
  exact hab ((List.Nodup.getElem_inj_iff hnd).mp hval)
lemma inflow_sub_sum (r : ℕ → ℚ) (S : ℕ → ℝ → ℝ) (m : ℕ) (v : ℝ) :
    ∑ i ∈ Finset.range (m + 1), (inflow r S i v - (r i : ℝ) * S i v) =
      -((r m : ℝ) * S m v) := by
  rw [Finset.sum_range_succ']
  have hg : ∀ i ∈ Finset.range m,
      inflow r S (i + 1) v - (r (i + 1) : ℝ) * S (i + 1) v =
        (r i : ℝ) * S i v - (r (i + 1) : ℝ) * S (i + 1) v := by
    intro i _
    simp [inflow]
  rw [Finset.sum_congr rfl hg, Finset.sum_range_sub' fun i => (r i : ℝ) * S i v]
  simp [inflow]
  ring

lemma chain_length_pos (ch : Chain) (hv : validChain ch = true) : 0 < ch.length := by
  rcases ch with _ | ⟨cp, tl⟩
  · simp [validChain] at hv
  · simp
lemma tendsto_coef_exp (a : ℝ) (b : ℚ) (hb : 0 < b) :
    Tendsto (fun t : ℝ => a * Real.exp (-(b : ℝ) * t)) atTop (𝓝 0) := by
  have hbR : (0 : ℝ) < (b : ℝ) := by exact_mod_cast hb
  have h1 : Tendsto (fun t : ℝ => (b : ℝ) * t) atTop atTop :=
    Tendsto.const_mul_atTop hbR tendsto_id
  have h3 : Tendsto (fun t : ℝ => Real.exp (-((b : ℝ) * t))) atTop (𝓝 0) :=
    Real.tendsto_exp_atBot.comp (tendsto_neg_atTop_atBot.comp h1)
  have h4 := h3.const_mul a
  simpa [neg_mul] using h4

lemma solve_tc99 : solve tc99 = Except.ok (solutionFun (rateAt tc99) (initAt tc99)) := by
  have hval : validChain tc99 = true := by norm_num [validChain, tc99]
  have hnd : (rates tc99).Nodup := by norm_num [rates, tc99, List.nodup_cons]
  unfold solve
  rw [if_neg (by simp [hval]), if_neg (by simp [hnd])]
lemma evalEnv_subsXY (e : SymExpr) (vx vy : ℚ) (a b : ℝ) :
    evalEnv a b (subsXY vx vy e) = evalEnv (vx : ℝ) (vy : ℝ) e := by
  induction e with
  | varX => simp [subsXY, evalEnv]
  | varY => simp [subsXY, evalEnv]
  | num q => simp [subsXY, evalEnv]
  | add x y hx hy => simp [subsXY, evalEnv, hx, hy]
  | mul x y hx hy => simp [subsXY, evalEnv, hx, hy]
  | pow x n hx => simp [subsXY, evalEnv, hx]
  | log x hx => simp [subsXY, evalEnv, hx]

lemma integrationConstants_eq : integrationConstants = {.C1, .C2, .C3} := by decide

/- ------------------------------------------------------------------ -/
/- The claims.                                                         -/
/- ------------------------------------------------------------------ -/

/-- Claim C1: for every chain accepted by `solve` and every compartment `i`,
the returned concentration function satisfies the decay-chain ODE
`d(c_i)/dt = inflow_i(t) - rate_i * c_i(t)` at every time `t ≥ 0`, where the
inflow is `rate_(i-1) * c_(i-1)(t)` for `i > 0` and `0` for `i = 0`. -/
theorem decayChain_ode (ch : Chain) (s : ℕ → ℝ → ℝ) (h : solve ch = Except.ok s)
    (i : ℕ) (hi : i < ch.length) (t : ℝ) (ht : 0 ≤ t) :
    HasDerivAt (s i) (inflow (rateAt ch) s i t - (rateAt ch i : ℝ) * s i t) t := by
  obtain ⟨hv, hnd, rfl⟩ := solve_eq_ok ch s h
  exact solutionFun_ode (rateAt ch) (initAt ch) i
    (fun a b ha hb hab => rateAt_ne_of_nodup ch hnd a b
      (Nat.lt_of_le_of_lt ha hi) (Nat.lt_of_le_of_lt hb hi) hab) t

/-- Witness for claim C1 at the concrete chain `wchain`, compartment 1,
time 1. -/
theorem decayChain_ode_witness :
    HasDerivAt (solutionFun (rateAt wchain) (initAt wchain) 1)
      (inflow (rateAt wchain) (solutionFun (rateAt wchain) (initAt wchain)) 1 1 -
        (rateAt wchain 1 : ℝ) * solutionFun (rateAt wchain) (initAt wchain) 1 1) 1 :=
  decayChain_ode wchain _ rfl 1 (by decide) 1 zero_le_one

/-- Claim C2: for every chain accepted by `solve` and every compartment `i`,
the returned function evaluated at `t = 0` equals the given initial
concentration exactly. -/
theorem initial_value_exact (ch : Chain) (s : ℕ → ℝ → ℝ) (h : solve ch = Except.ok s)
    (i : ℕ) (hi : i < ch.length) : s i 0 = (initAt ch i : ℝ) := by
  obtain ⟨hv, hnd, rfl⟩ := solve_eq_ok ch s h
  exact solutionFun_zero _ _ i

/-- Witness for claim C2 at the concrete chain `wchain`, compartment 1. -/
theorem initial_value_exact_witness :
    solutionFun (rateAt wchain) (initAt wchain) 1 0 = (initAt wchain 1 : ℝ) :=
  initial_value_exact wchain _ rfl 1 (by decide)

/-- Claim C3: on the 3-compartment Tc-99m chain with rates
`3.2e-5, 1.04e-13, 0` and initial concentrations `1, 0, 0`, the solution is
`[1, 0, 0]` at `t = 0` and tends to `[0, 0, 1]` as `t` tends to infinity. -/
theorem tc99_scenario :
    ∃ s, solve tc99 = Except.ok s ∧
      (s 0 0 = 1 ∧ s 1 0 = 0 ∧ s 2 0 = 0) ∧
      Tendsto (s 0) atTop (𝓝 0) ∧ Tendsto (s 1) atTop (𝓝 0) ∧
        Tendsto (s 2) atTop (𝓝 1) := by
  refine ⟨solutionFun (rateAt tc99) (initAt tc99), solve_tc99, ⟨?_, ?_, ?_⟩, ?_, ?_, ?_⟩
  · rw [solutionFun_zero]; norm_num [initAt, initcs, tc99]
  · rw [solutionFun_zero]; norm_num [initAt, initcs, tc99]
  · rw [solutionFun_zero]; norm_num [initAt, initcs, tc99]
  · have e0 : solutionFun (rateAt tc99) (initAt tc99) 0 = fun t =>
        (coeffRow (rateAt tc99) (initAt tc99) 0 0 : ℝ) * Real.exp (-(rateAt tc99 0 : ℝ) * t) := by
      funext v
      simp [solutionFun, Finset.sum_range_one]
    rw [e0]
    exact tendsto_coef_exp _ _ (by norm_num [rateAt, rates, tc99])
  · have e1 : solutionFun (rateAt tc99) (initAt tc99) 1 = fun t =>
        (coeffRow (rateAt tc99) (initAt tc99) 1 0 : ℝ) * Real.exp (-(rateAt tc99 0 : ℝ) * t) +
          (coeffRow (rateAt tc99) (initAt tc99) 1 1 : ℝ) * Real.exp (-(rateAt tc99 1 : ℝ) * t) := by
      funext v
      simp [solutionFun, Finset.sum_range_succ, Finset.sum_range_one]
    rw [e1]
    have h0 := tendsto_coef_exp ((coeffRow (rateAt tc99) (initAt tc99) 1 0 : ℝ))
      (rateAt tc99 0) (by norm_num [rateAt, rates, tc99])
    have h1 := tendsto_coef_exp ((coeffRow (rateAt tc99) (initAt tc99) 1 1 : ℝ))
      (rateAt tc99 1) (by norm_num [rateAt, rates, tc99])
    simpa using h0.add h1
  · have hr2 : rateAt tc99 2 = 0 := by norm_num [rateAt, rates, tc99]
    have hc22 : coeffRow (rateAt tc99) (initAt tc99) 2 2 = 1 := by
      norm_num [coeffRow, rateAt, initAt, rates, initcs, tc99, Finset.sum_range_succ]
    have e2 : solutionFun (rateAt tc99) (initAt tc99) 2 = fun t =>
        ((coeffRow (rateAt tc99) (initAt tc99) 2 0 : ℝ) * Real.exp (-(rateAt tc99 0 : ℝ) * t) +
          (coeffRow (rateAt tc99) (initAt tc99) 2 1 : ℝ) * Real.exp (-(rateAt tc99 1 : ℝ) * t)) +
          1 := by
      funext v
      simp [solutionFun, Finset.sum_range_succ, Finset.sum_range_one, hr2, hc22]
    rw [e2]
    have h0 := tendsto_coef_exp ((coeffRow (rateAt tc99) (initAt tc99) 2 0 : ℝ))
      (rateAt tc99 0) (by norm_num [rateAt, rates, tc99])
    have h1 := tendsto_coef_exp ((coeffRow (rateAt tc99) (initAt tc99) 2 1 : ℝ))
      (rateAt tc99 1) (by norm_num [rateAt, rates, tc99])
    have hconst : Tendsto (fun _ : ℝ => (1 : ℝ)) atTop (𝓝 1) := tendsto_const_nhds
    have hsum := (h0.add h1).add hconst
    simpa using hsum

/-- Claim C4: for every chain accepted by `solve` whose terminal compartment
has rate 0, the total concentration `∑ i, s i t` takes the same value at all
times, i.e. mass is conserved. -/
theorem mass_conservation (ch : Chain) (s : ℕ → ℝ → ℝ) (h : solve ch = Except.ok s)
    (hterm : rateAt ch (ch.length - 1) = 0) (t u : ℝ) (ht : 0 ≤ t) (hu : 0 ≤ u) :
    ∑ i ∈ Finset.range ch.length, s i t = ∑ i ∈ Finset.range ch.length, s i u := by
  obtain ⟨hv, hnd, rfl⟩ := solve_eq_ok ch s h
  obtain ⟨m, hm⟩ : ∃ m, ch.length = m + 1 :=
    ⟨ch.length - 1, by have := chain_length_pos ch hv; omega⟩
  have hrm : (rateAt ch m : ℝ) = 0 := by
    have : rateAt ch m = 0 := by rw [show m = ch.length - 1 by omega]; exact hterm
    exact_mod_cast congrArg (fun q : ℚ => (q : ℝ)) this
  have hder : ∀ v : ℝ, HasDerivAt
      (fun w => ∑ i ∈ Finset.range (m + 1), solutionFun (rateAt ch) (initAt ch) i w) 0 v := by
    intro v
    have h1 : HasDerivAt
        (fun w => ∑ i ∈ Finset.range (m + 1), solutionFun (rateAt ch) (initAt ch) i w)
        (∑ i ∈ Finset.range (m + 1),
          (inflow (rateAt ch) (solutionFun (rateAt ch) (initAt ch)) i v -
            (rateAt ch i : ℝ) * solutionFun (rateAt ch) (initAt ch) i v)) v := by
      apply HasDerivAt.sum
      intro i hi
      have hi' : i < ch.length := by rw [hm]; exact Finset.mem_range.mp hi
      exact solutionFun_ode (rateAt ch) (initAt ch) i
        (fun a b ha hb hab => rateAt_ne_of_nodup ch hnd a b
          (Nat.lt_of_le_of_lt ha hi') (Nat.lt_of_le_of_lt hb hi') hab) v
    rw [inflow_sub_sum, hrm] at h1
    simpa using h1
  have hdiff : Differentiable ℝ
      (fun w => ∑ i ∈ Finset.range (m + 1), solutionFun (rateAt ch) (initAt ch) i w) :=
    fun v => (hder v).differentiableAt
  have hconst := is_const_of_deriv_eq_zero hdiff (fun v => (hder v).deriv) t u
  rw [hm]
  exact hconst

/-- Witness for claim C4 at the concrete chain `wchain` (terminal rate 0),
comparing times 1 and 0. -/
theorem mass_conservation_witness :
    ∑ i ∈ Finset.range wchain.length, solutionFun (rateAt wchain) (initAt wchain) i 1 =
      ∑ i ∈ Finset.range wchain.length, solutionFun (rateAt wchain) (initAt wchain) i 0 :=
  mass_conservation wchain _ rfl (by decide) 1 0 zero_le_one le_rfl

/-- Claim C5: when two compartments share an identical rate constant, `solve`
raises `degenerateRates`; this (rather than a secular-term closed form) is the
implemented behaviour of the modelled solver. -/
theorem degenerate_rates_detected (ch : Chain) (hv : validChain ch = true)
    (hdup : ¬ (rates ch).Nodup) :
    solve ch = Except.error SolveError.degenerateRates := by
  unfold solve
  rw [if_neg (by simp [hv]), if_pos hdup]

/-- Witness for claim C5 at the two-compartment chain with equal rates. -/
theorem degenerate_rates_detected_witness :
    solve dchain = Except.error SolveError.degenerateRates :=
  degenerate_rates_detected dchain (by decide) (by decide)

/-- Claim C6: `solve` fails with `invalidChain` whenever the chain is empty,
contains a negative rate constant, or contains a negative initial
concentration. -/
theorem invalid_chain_rejected (ch : Chain)
    (h : ch = [] ∨ (∃ cp ∈ ch, cp.rate < 0) ∨ ∃ cp ∈ ch, cp.initc < 0) :
    solve ch = Except.error SolveError.invalidChain := by
  have hv : validChain ch = false := by
    rw [Bool.eq_false_iff]
    intro htrue
    simp only [validChain, Bool.and_eq_true, List.all_eq_true, Bool.not_eq_eq_eq_not,
      Bool.not_false, decide_eq_true_eq] at htrue
    obtain ⟨hne, hall⟩ := htrue
    rcases h with rfl | ⟨cp, hmem, hneg⟩ | ⟨cp, hmem, hneg⟩
    · simp at hne
    · have := hall cp hmem
      simp only [Bool.and_eq_true, decide_eq_true_eq] at this
      exact absurd this.1 (not_le.mpr hneg)
    · have := hall cp hmem
      simp only [Bool.and_eq_true, decide_eq_true_eq] at this
      exact absurd this.2 (not_le.mpr hneg)
  unfold solve
  rw [if_pos hv]

/-- Witness for claim C6 at the empty chain. -/
theorem invalid_chain_rejected_witness :
    solve [] = Except.error SolveError.invalidChain :=
  invalid_chain_rejected [] (Or.inl rfl)

/-- Claim C7: for every chain accepted by `solve`, compartment 0 follows pure
exponential decay: `c_0(t) = c_0(0) * exp (-rate_0 * t)` for all `t ≥ 0`. -/
theorem compartment_zero_exp (ch : Chain) (s : ℕ → ℝ → ℝ) (h : solve ch = Except.ok s)
    (t : ℝ) (ht : 0 ≤ t) :
    s 0 t = s 0 0 * Real.exp (-(rateAt ch 0 : ℝ) * t) := by
  obtain ⟨hv, hnd, rfl⟩ := solve_eq_ok ch s h
  simp [solutionFun, Finset.sum_range_one, mul_zero, neg_zero, Real.exp_zero]

/-- Witness for claim C7 at the concrete chain `wchain`, time 1. -/
theorem compartment_zero_exp_witness :
    solutionFun (rateAt wchain) (initAt wchain) 0 1 =
      solutionFun (rateAt wchain) (initAt wchain) 0 0 *
        Real.exp (-(rateAt wchain 0 : ℝ) * 1) :=
  compartment_zero_exp wchain _ rfl 1 zero_le_one

/-- Claim C8: evaluating the compiled expression over two 2-dimensional grids
produces an output whose shape follows the broadcasting (outer-product) rule
of the input shapes. -/
theorem broadcast_shape (A B : Arr2) (m n : ℕ)
    (hr : broadcastDim A.rows B.rows = some m) (hc : broadcastDim A.cols B.cols = some n) :
    ∃ C, harr A B = some C ∧ C.rows = m ∧ C.cols = n := by
  unfold harr broadcastMap2
  rw [hr, hc]
  exact ⟨_, rfl, rfl, rfl⟩

/-- Witness for claim C8: a `(5,1)`-shaped and a `(1,7)`-shaped input yield a
`(5,7)`-shaped output. -/
theorem broadcast_shape_witness :
    ∃ C, harr xarr2d yarr2d = some C ∧ C.rows = 5 ∧ C.cols = 7 :=
  broadcast_shape xarr2d yarr2d 5 7 rfl rfl

/-- Claim C9: the function `lambdify` compiles from the notebook's expression
agrees, at `(17, 42)`, with substituting the values symbolically and then
evaluating numerically. -/
theorem lambdify_agrees_subs_evalf :
    lambdifyXY exprDemo 17 42 = evalf (subsXY 17 42 exprDemo) := by
  rw [evalf, evalEnv_subsXY]
  norm_num [lambdifyXY]

/-- Claim C10: after back-substituting the solved integration constants, every
free symbol of each analytic solution is among the declared parameters
`t, lambda_1, lambda_2, x0, y0, z0`; no integration constant remains. -/
theorem analytic_no_integration_constants :
    ∀ e ∈ analytic, freeSymbols e ⊆ declaredSymbols := by decide

/-- Witness for claim C10 at the first analytic solution. -/
theorem analytic_no_integration_constants_witness :
    freeSymbols (substConsts constExprs xSol) ⊆ declaredSymbols :=
  analytic_no_integration_constants (substConsts constExprs xSol) (by decide)
